import Mathlib

/-!
Shallow embedding of `src/spotlight.py` (windows10spotlight.com scraper).

The three operations under study are pure transforms of an already-parsed
HTML document; following the spec, the HTTP fetch and the HTML parsing
library are external collaborators.  A document is therefore modelled as
the record of query results the source code extracts from it:

* for `get_total_pages`: the list of raw visible texts of the pagination
  links selected by `nav.navigation.pagination a.page-numbers`;
* for `get_page`: the list of `article` elements, each reduced to its
  class-token list, the `href` of its first `a[href*='/images/']`
  descendant (the selector guarantees the attribute is present), and its
  first `img` descendant's attributes;
* for `get_image_info`: class-token lists of the `article` elements, raw
  texts of the first `h1`/`h2`, raw texts of `[rel='tag']` elements,
  the first `time` / `span.date` element, all `meta` elements and all
  `img` elements in document order (the attribute-based filters the
  source applies via CSS selectors are reproduced explicitly here).

Python string primitives (`strip`, `split`, `rsplit(None, 1)`,
`rstrip("w")`, `replace`, `isdigit`, `int()`) are modelled character by
character.  Decimal digits and whitespace are modelled over ASCII
(Python also accepts some non-ASCII decimal digits and whitespace,
which `isdigit()` and `int()` treat alike); the non-decimal digit
characters that `isdigit()` accepts but `int()` rejects — superscript
and subscript digits such as '²' — are modelled explicitly by
`isDigitNonDec`, because they are the one place where the two
acceptance sets diverge and `get_total_pages` can raise.
-/

set_option autoImplicit false

namespace Spotlight

/-! ### Python string primitives -/

/-- Python whitespace (ASCII): the characters `str.strip()` and
`str.split(None)` treat as separators. -/
def isWs (c : Char) : Bool :=
  c = ' ' || c = '\t' || c = '\n' || c = '\r' || c = '\x0b' || c = '\x0c'

/-- ASCII decimal digit. -/
def isDigitC (c : Char) : Bool :=
  '0' ≤ c && c ≤ '9'

/-- Python `str.strip()`: drop leading and trailing whitespace (char level). -/
def pyStripChars (cs : List Char) : List Char :=
  ((cs.dropWhile isWs).reverse.dropWhile isWs).reverse

/-- Python `str.strip()` on strings. -/
def pyStrip (s : String) : String :=
  String.mk (pyStripChars s.toList)

/-- Python `str.split(sep)` for a one-character separator, at char level:
`"".split(",") = [""]`, `"a,,b".split(",") = ["a", "", "b"]`. -/
def splitOnChar (sep : Char) : List Char → List (List Char)
  | [] => [[]]
  | c :: rest =>
    match splitOnChar sep rest with
    | [] => [[]]
    | g :: gs => if c = sep then [] :: g :: gs else (c :: g) :: gs

/-- Python `str.split(sep)` for a one-character separator. -/
def pySplit (s : String) (sep : Char) : List String :=
  (splitOnChar sep s.toList).map String.mk

/-- Python `str.rsplit(None, 1)` restricted to the information the source
uses: `some (left, right)` when the split produces exactly two parts
(the string contains an internal whitespace run), `none` otherwise
(`len(parts) != 2`). -/
def pyRSplitWs1 (s : String) : Option (String × String) :=
  let r := s.toList.reverse
  let r1 := r.dropWhile isWs
  match r1 with
  | [] => none
  | _ :: _ =>
    let w := r1.takeWhile (fun c => !isWs c)
    let r2 := r1.drop w.length
    match r2 with
    | [] => none
    | _ :: _ =>
      match r2.dropWhile isWs with
      | [] => none
      | r3 => some (String.mk r3.reverse, String.mk w.reverse)

/-- Python `str.rstrip("w")`: drop trailing `'w'` characters. -/
def rstripW (cs : List Char) : List Char :=
  (cs.reverse.dropWhile (fun c => c = 'w')).reverse

/-- Python `str.isdigit()` restricted to decimal digits: non-empty and
all decimal digits.  This is the decimal fragment of `isdigit()`, exact
on texts without the non-decimal digit characters of `isDigitNonDec`;
`pyIsDigitFull` is the faithful predicate. -/
def pyIsDigit (s : String) : Bool :=
  !s.toList.isEmpty && s.toList.all isDigitC

/-- The non-decimal digit characters of the model: characters Python
`str.isdigit()` accepts but `int()` rejects (Numeric_Type=Digit, not
decimal).  Modelled fragment: the superscript and subscript digits. -/
def isDigitNonDec (c : Char) : Bool :=
  c = '¹' || c = '²' || c = '³' ||
  c = '⁰' || c = '⁴' || c = '⁵' || c = '⁶' || c = '⁷' || c = '⁸' || c = '⁹' ||
  ('₀' ≤ c && c ≤ '₉')

/-- Python `str.isdigit()` on the modelled fragment: non-empty and all
characters decimal digits or non-decimal digit characters. -/
def pyIsDigitFull (s : String) : Bool :=
  !s.toList.isEmpty && s.toList.all (fun c => isDigitC c || isDigitNonDec c)

/-- Numeric value of a digit list (most significant first). -/
def digitsVal (cs : List Char) : Nat :=
  cs.foldl (fun a c => 10 * a + (c.toNat - 48)) 0

/-- Validity of the characters after the first one in the digit part of a
Python integer literal: digits, with single underscores allowed between
digits (`int("1_0") = 10`, `int("1__0")` and `int("1_")` raise). -/
def pyDigitsRest : List Char → Bool
  | [] => true
  | [c] => isDigitC c
  | c :: d :: rest =>
    if c = '_' then isDigitC d && pyDigitsRest rest
    else isDigitC c && pyDigitsRest (d :: rest)

/-- Digit part of Python `int()` (no sign, no surrounding whitespace):
non-empty, starts with a digit, underscores only single and between
digits.  Value: digits with underscores removed. -/
def pyIntCore? (cs : List Char) : Option Nat :=
  match cs with
  | [] => none
  | c :: rest =>
    if isDigitC c && pyDigitsRest rest then
      some (digitsVal ((c :: rest).filter (fun x => x ≠ '_')))
    else none

/-- Python `int(str)`: strip whitespace, optional ASCII sign, digit part.
`none` models `ValueError`. -/
def pyInt? (s : String) : Option Int :=
  match pyStripChars s.toList with
  | '-' :: rest => (pyIntCore? rest).map (fun n : Nat => -(n : Int))
  | '+' :: rest => (pyIntCore? rest).map (fun n : Nat => (n : Int))
  | cs => (pyIntCore? cs).map (fun n : Nat => (n : Int))

/-- `sub` occurs as a substring of `s` (models CSS `[attr*='sub']` and is
only used with non-empty patterns). -/
def strContains (s sub : String) : Bool :=
  s.toList.tails.any (fun t => sub.toList.isPrefixOf t)

/-- Python `max(xs, key=...)` on a non-empty list, given as head and tail:
`foldl` replacing the current best only on a strictly larger key, so the
first element attaining the maximum key wins. -/
def pyMaxBy {α : Type} (key : α → Int) (x : α) (xs : List α) : α :=
  xs.foldl (fun best y => if key best < key y then y else best) x

/-! ### Data model -/

/-- An `img` element reduced to the attributes the source reads
(`src`, `srcset`, `alt`); `none` is an absent attribute. -/
structure ImgTag where
  src : Option String
  srcset : Option String
  alt : Option String
deriving Repr, DecidableEq

/-- An `article` element of a listing page, reduced to the query results
`get_page` uses: its class tokens, the `href` of the first descendant
`a[href*='/images/']` (`none` when no such link: the selector guarantees
the `href` attribute on a match), and its first descendant `img`. -/
structure Article where
  classes : List String
  detailHref : Option String
  img : Option ImgTag
deriving Repr, DecidableEq

/-- A listing-page document, as queried by `get_page`. -/
structure ListingDoc where
  articles : List Article
deriving Repr, DecidableEq

/-- Output record of `get_page` (one per qualifying article). -/
structure ListingEntry where
  id : Int
  detail_url : Option String
  thumbnail_url : Option String
  thumbnail_hash : Option String
deriving Repr, DecidableEq

/-- A `meta` element reduced to its `property` and `content` attributes. -/
structure MetaTag where
  property : Option String
  content : Option String
deriving Repr, DecidableEq

/-- A `time` (or `span.date`) element: raw visible text plus the
`datetime` attribute. -/
structure TimeTag where
  text : String
  datetimeAttr : Option String
deriving Repr, DecidableEq

/-- A detail-page document, as queried by `get_image_info`: class-token
lists of `article` elements, raw text of the first `h1` and `h2`, raw
texts of `[rel='tag']` elements, first `time` element, first `span.date`
element, all `meta` elements and all `img` elements in document order. -/
structure DetailDoc where
  articles : List (List String)
  h1 : Option String
  h2 : Option String
  tagTexts : List String
  timeElem : Option TimeTag
  spanDate : Option TimeTag
  metas : List MetaTag
  imgs : List ImgTag
deriving Repr, DecidableEq

/-- One candidate rendition of an image (an entry of `all_images`). -/
structure ImageVariant where
  url : String
  width : Option Int
  alt : String
deriving Repr, DecidableEq

/-- Output record of `get_image_info`.  `og_metadata` is the Python dict
as an association list in insertion order (assignment to an existing key
updates it in place). -/
structure ImageDetail where
  id : Int
  title : Option String
  full_resolution_url : Option String
  tags : List String
  date : Option String
  datetime : Option String
  og_metadata : List (String × String)
  all_images : List ImageVariant
deriving Repr, DecidableEq

/-! ### Post-id extraction (shared by `get_page` and `get_image_info`)

Source (`get_page`, lines 85-91, and identically `get_image_info`,
lines 145-151):
```
for cls in classes:
    if cls.startswith("post-"):
        try:
            image_id = int(cls.split("-")[1])
            break
        except (IndexError, ValueError):
            continue
```
-/

/-- `int(cls.split("-")[1])` for one class token with the `post-` prefix
guard; `none` models both the skipped non-`post-` token and the caught
`IndexError` / `ValueError`. -/
def clsParse? (cls : String) : Option Int :=
  if "post-".toList.isPrefixOf cls.toList then
    match (pySplit cls '-').get? 1 with
    | some tok => pyInt? tok
    | none => none
  else none

/-- The loop above: the first class token for which the parse succeeds
wins; failures continue. -/
def extract_post_id (classes : List String) : Option Int :=
  classes.findSome? clsParse?

/-! ### `get_total_pages` (source lines 36-49) -/

/-- `link.get_text(strip=True)` followed by `text.replace(",", "")`. -/
def cleanLinkText (t : String) : String :=
  String.mk ((pyStripChars t.toList).filter (fun c => c ≠ ','))

/-- The `page_numbers` accumulation loop (lines 40-46), over the
decimal fragment of `isdigit()`: with the `pyIsDigit` guard the
`(pyInt? _).getD 0` stand-in for `int()` never takes its default
(`isDigit_pyInt` below).  The `Except` variant `page_numbersE` uses the
faithful guard `pyIsDigitFull` and keeps `int()` fallible, exposing the
inputs on which the real `int()` call raises. -/
def page_numbers (linkTexts : List String) : List Int :=
  linkTexts.foldl (fun acc t =>
    let c := cleanLinkText t
    if pyIsDigit c then acc ++ [(pyInt? c).getD 0] else acc) []

/-- `return max(page_numbers) if page_numbers else 1` (line 49), with the
document reduced to the raw texts of the selected pagination links. -/
def get_total_pages (linkTexts : List String) : Int :=
  match page_numbers linkTexts with
  | [] => 1
  | x :: xs => pyMaxBy id x xs

/-! ### `get_page` (source lines 77-112) -/

/-- The fields appended for one qualifying article (lines 96-110):
`detail_link.get("href") if detail_link else None`,
`img.get("src") if img else None`, `img.get("alt") if img else None`. -/
def mkEntry (a : Article) (i : Int) : ListingEntry :=
  { id := i
  , detail_url := a.detailHref
  , thumbnail_url := a.img.bind (fun g => g.src)
  , thumbnail_hash := a.img.bind (fun g => g.alt) }

/-- The article loop of `get_page` (lines 81-112): an article whose id
extraction fails (`image_id is None`) is skipped, otherwise one entry is
appended. -/
def get_page (doc : ListingDoc) : List ListingEntry :=
  doc.articles.foldl (fun images a =>
    match extract_post_id a.classes with
    | none => images
    | some i => images ++ [mkEntry a i]) []

/-! ### `get_image_info` (source lines 115-236) -/

/-- `int(width_str.rstrip("w"))`. -/
def parseWidth? (w : String) : Option Int :=
  pyInt? (String.mk (rstripW w.toList))

/-- One iteration of the srcset entry loop (lines 191-204): strip, skip
empty, `rsplit(None, 1)`, require two parts, parse the width token;
`none` models `continue` (including the caught `ValueError`). -/
def parseEntry? (e : String) : Option (String × Int) :=
  let e' := pyStrip e
  if e' = "" then none
  else
    match pyRSplitWs1 e' with
    | some (u, w) => (parseWidth? w).map (fun n => (u, n))
    | none => none

/-- The `entries` list built from `srcset.split(",")` (lines 190-204). -/
def parseSrcset (srcset : String) : List (String × Int) :=
  (pySplit srcset ',').filterMap parseEntry?

/-- The CSS filter `img[src*='wp-content/uploads']` (line 183). -/
def selectedImg (img : ImgTag) : Bool :=
  match img.src with
  | some s => strContains s "wp-content/uploads"
  | none => false

/-- `img.get("alt", "")`. -/
def altOf (img : ImgTag) : String := img.alt.getD ""

/-- The per-image body of the `all_images` loop (lines 185-222): with a
truthy (non-empty) `srcset`, parse its entries and, when any parsed,
append the entry of maximum width (`max(entries, key=lambda x: x[1])`,
first maximum wins); a truthy `srcset` with no parsed entries appends
nothing.  With a falsy (absent or empty) `srcset`, append the element's
own truthy `src` with no width.  `some` is the appended variant, `none`
means nothing is appended. -/
def processImg (img : ImgTag) : Option ImageVariant :=
  let srcset := img.srcset.getD ""
  if srcset ≠ "" then
    match parseSrcset srcset with
    | [] => none
    | e :: es =>
      let m := pyMaxBy (fun p => p.2) e es
      some { url := m.1, width := some m.2, alt := altOf img }
  else
    match img.src with
    | some s => if s ≠ "" then some { url := s, width := none, alt := altOf img } else none
    | none => none

/-- Python dict assignment `d[k] = v`: update in place when the key is
present, else append. -/
def dictInsert : List (String × String) → String → String → List (String × String)
  | [], k, v => [(k, v)]
  | (k', v') :: rest, k, v =>
    if k' = k then (k', v) :: rest else (k', v') :: dictInsert rest k v

/-- Python dict lookup `d.get(k)`: first entry with the key (keys are
unique by construction of `dictInsert`). -/
def dictLookup : List (String × String) → String → Option String
  | [], _ => none
  | (k', v) :: rest, k => if k' = k then some v else dictLookup rest k

/-- The CSS filter `meta[property^='og:']` (line 174). -/
def selectedMeta (m : MetaTag) : Bool :=
  match m.property with
  | some p => "og:".toList.isPrefixOf p.toList
  | none => false

/-- One iteration of the Open Graph loop (lines 175-179):
`if property_name and content:` (both present and non-empty) assign
`og_metadata[property_name] = content`, else do nothing. -/
def ogStep (d : List (String × String)) (m : MetaTag) : List (String × String) :=
  match m.property, m.content with
  | some p, some c => if p ≠ "" ∧ c ≠ "" then dictInsert d p c else d
  | _, _ => d

/-- The Open Graph loop (lines 173-179) over the selected metas. -/
def og_metadata (metas : List MetaTag) : List (String × String) :=
  (metas.filter selectedMeta).foldl ogStep []

/-- `get_image_info` (lines 115-236) with the document reduced to its
query results and `image_id` the caller-supplied fallback id.  Note
`"id": post_id or image_id` (line 228): Python `or` also rejects a
*zero* `post_id`. -/
def get_image_info (doc : DetailDoc) (image_id : Int) : ImageDetail :=
  let post_id : Option Int :=
    match doc.articles with
    | [] => none
    | cls :: _ => extract_post_id cls
  let title : Option String :=
    match doc.h1 with
    | some t => some (pyStrip t)
    | none => doc.h2.map pyStrip
  let datePair : Option String × Option String :=
    match doc.timeElem with
    | some t => (some (pyStrip t.text), t.datetimeAttr)
    | none =>
      match doc.spanDate with
      | some d => (some (pyStrip d.text), d.datetimeAttr)
      | none => (none, none)
  let all_images : List ImageVariant :=
    (doc.imgs.filter selectedImg).foldl (fun acc img =>
      match processImg img with
      | none => acc
      | some v => acc ++ [v]) []
  let full : Option String :=
    match all_images with
    | [] => none
    | v :: _ => some v.url
  { id :=
      match post_id with
      | some n => if n = 0 then image_id else n
      | none => image_id
  , title := title
  , full_resolution_url := full
  , tags := doc.tagTexts.map pyStrip
  , date := datePair.1
  , datetime := datePair.2
  , og_metadata := og_metadata doc.metas
  , all_images := all_images }

/-! ### Error-tracking variants

For the error-freedom claim, the operations are re-stated in
`Except PyErr` with the genuinely fallible primitives explicit: `int()`
and `max()` raise `ValueError`, subscripting raises `IndexError`.  The
source's `try/except (IndexError, ValueError)` blocks appear as the
explicit `match _ with | .ok _ | .error _` handlers, and the source's
emptiness guards appear exactly where the source has them. -/

/-- A Python exception a parse operation could raise. -/
inductive PyErr where
  | valueError
  | indexError
deriving Repr, DecidableEq

/-- `int(s)`, fallible. -/
def pyIntE (s : String) : Except PyErr Int :=
  match pyInt? s with
  | some v => .ok v
  | none => .error .valueError

/-- `l[i]`, fallible. -/
def indexE {α : Type} (l : List α) (i : Nat) : Except PyErr α :=
  match l.get? i with
  | some v => .ok v
  | none => .error .indexError

/-- `max(xs, key=...)`: raises `ValueError` on an empty list. -/
def maxByE {α : Type} (key : α → Int) : List α → Except PyErr α
  | [] => .error .valueError
  | x :: xs => .ok (pyMaxBy key x xs)

/-- `int(cls.split("-")[1])` with both fallible steps explicit. -/
def clsParseE (cls : String) : Except PyErr Int :=
  match indexE (pySplit cls '-') 1 with
  | .error e => .error e
  | .ok tok => pyIntE tok

/-- The id-extraction loop with its `try/except` handler explicit. -/
def extract_post_idE (classes : List String) : Option Int :=
  classes.findSome? (fun cls =>
    if "post-".toList.isPrefixOf cls.toList then
      match clsParseE cls with
      | .ok v => some v
      | .error _ => none
    else none)

/-- The `page_numbers` loop with `int()` fallible, guarded by the
faithful `isdigit()`: the guard accepts non-decimal digit characters
that `int()` rejects, so the conversion can raise. -/
def page_numbersE : List String → List Int → Except PyErr (List Int)
  | [], acc => .ok acc
  | t :: rest, acc =>
    let c := cleanLinkText t
    if pyIsDigitFull c then
      match pyIntE c with
      | .error e => .error e
      | .ok v => page_numbersE rest (acc ++ [v])
    else page_numbersE rest acc

/-- `get_total_pages` with fallible `int()` and `max()`. -/
def get_total_pagesE (linkTexts : List String) : Except PyErr Int :=
  match page_numbersE linkTexts [] with
  | .error e => .error e
  | .ok pns =>
    match pns with
    | [] => .ok 1
    | x :: xs => maxByE id (x :: xs)

/-- `get_page` with the fallible id extraction (whose exceptions the
source catches); no other operation of the loop can raise. -/
def get_pageE (doc : ListingDoc) : Except PyErr (List ListingEntry) :=
  .ok (doc.articles.foldl (fun images a =>
    match extract_post_idE a.classes with
    | none => images
    | some i => images ++ [mkEntry a i]) [])

/-- One srcset entry with the fallible `int()` and its `except
ValueError` handler explicit. -/
def parseEntryE (e : String) : Option (String × Int) :=
  let e' := pyStrip e
  if e' = "" then none
  else
    match pyRSplitWs1 e' with
    | some (u, w) =>
      match pyIntE (String.mk (rstripW w.toList)) with
      | .ok n => some (u, n)
      | .error _ => none
    | none => none

/-- The per-image body with `max()` fallible (guarded by `if entries:`). -/
def processImgE (img : ImgTag) : Except PyErr (Option ImageVariant) :=
  let srcset := img.srcset.getD ""
  if srcset ≠ "" then
    match (pySplit srcset ',').filterMap parseEntryE with
    | [] => .ok none
    | e :: es =>
      match maxByE (fun p => p.2) (e :: es) with
      | .error er => .error er
      | .ok m => .ok (some { url := m.1, width := some m.2, alt := altOf img })
  else
    match img.src with
    | some s => if s ≠ "" then .ok (some { url := s, width := none, alt := altOf img }) else .ok none
    | none => .ok none

/-- The `all_images` loop, propagating a possible error of the body. -/
def all_imagesE : List ImgTag → List ImageVariant → Except PyErr (List ImageVariant)
  | [], acc => .ok acc
  | img :: rest, acc =>
    match processImgE img with
    | .error e => .error e
    | .ok none => all_imagesE rest acc
    | .ok (some v) => all_imagesE rest (acc ++ [v])

/-- `get_image_info` with fallible `int()`, `max()` and the
`all_images[0]` subscript (guarded by `if all_images`). -/
def get_image_infoE (doc : DetailDoc) (image_id : Int) : Except PyErr ImageDetail :=
  let post_id : Option Int :=
    match doc.articles with
    | [] => none
    | cls :: _ => extract_post_idE cls
  let title : Option String :=
    match doc.h1 with
    | some t => some (pyStrip t)
    | none => doc.h2.map pyStrip
  let datePair : Option String × Option String :=
    match doc.timeElem with
    | some t => (some (pyStrip t.text), t.datetimeAttr)
    | none =>
      match doc.spanDate with
      | some d => (some (pyStrip d.text), d.datetimeAttr)
      | none => (none, none)
  match all_imagesE (doc.imgs.filter selectedImg) [] with
  | .error e => .error e
  | .ok all_images =>
    match (match all_images with
           | [] => .ok none
           | _ :: _ =>
             match indexE all_images 0 with
             | .error e => .error e
             | .ok v => .ok (some v.url) : Except PyErr (Option String)) with
    | .error e => .error e
    | .ok full =>
      .ok { id :=
              match post_id with
              | some n => if n = 0 then image_id else n
              | none => image_id
          , title := title
          , full_resolution_url := full
          , tags := doc.tagTexts.map pyStrip
          , date := datePair.1
          , datetime := datePair.2
          , og_metadata := og_metadata doc.metas
          , all_images := all_images }

/-! ### Specification-side definition for the Open Graph claim

Stated from the spec's words, for comparison with `og_metadata`: the
qualifying contents recorded under a property name, in document order
(qualifying: property present and starting with `"og:"`, content present
and non-empty); the claim says the *last* such content is the mapping's
value. -/

/-- Whether a meta element qualifies for property name `k` according to
the spec, and with which content. -/
def ogSpecF (k : String) (m : MetaTag) : Option String :=
  match m.property, m.content with
  | some p, some c =>
    if "og:".toList.isPrefixOf p.toList ∧ p = k ∧ c ≠ "" then some c else none
  | _, _ => none

/-- Contents the spec says are recorded under property name `k`. -/
def ogSpecEntries (metas : List MetaTag) (k : String) : List String :=
  metas.filterMap (ogSpecF k)

/-! ### Helper lemmas -/

theorem isWs_false_of_isDigitC {c : Char} (h : isDigitC c = true) : isWs c = false := by
  simp only [isDigitC, Bool.and_eq_true, decide_eq_true_eq] at h
  obtain ⟨h1, h2⟩ := h
  simp only [isWs, Bool.or_eq_false_iff, decide_eq_false_iff_not]
  refine ⟨⟨⟨⟨⟨?_, ?_⟩, ?_⟩, ?_⟩, ?_⟩, ?_⟩ <;>
    rintro rfl <;> revert h1 h2 <;> decide

theorem ne_underscore_of_isDigitC {c : Char} (h : isDigitC c = true) : c ≠ '_' := by
  rintro rfl; revert h; decide

theorem ne_dash_of_isDigitC {c : Char} (h : isDigitC c = true) : c ≠ '-' := by
  rintro rfl; revert h; decide

theorem ne_plus_of_isDigitC {c : Char} (h : isDigitC c = true) : c ≠ '+' := by
  rintro rfl; revert h; decide

theorem dropWhile_eq_self_of_all {α : Type} {p : α → Bool} :
    ∀ {l : List α}, (∀ x ∈ l, p x = false) → l.dropWhile p = l := by
  intro l h
  cases l with
  | nil => rfl
  | cons a l =>
    rw [List.dropWhile_cons, h a (List.mem_cons_self a l)]
    simp

theorem pyStripChars_eq_self_of_all {cs : List Char}
    (h : ∀ x ∈ cs, isWs x = false) : pyStripChars cs = cs := by
  unfold pyStripChars
  rw [dropWhile_eq_self_of_all h,
      dropWhile_eq_self_of_all (fun x hx => h x (List.mem_reverse.mp hx)),
      List.reverse_reverse]

theorem mem_pyStripChars {cs : List Char} {x : Char}
    (h : x ∈ pyStripChars cs) : x ∈ cs := by
  unfold pyStripChars at h
  rw [List.mem_reverse] at h
  have h2 := (List.dropWhile_sublist (l := (cs.dropWhile isWs).reverse) isWs).mem h
  rw [List.mem_reverse] at h2
  exact (List.dropWhile_sublist isWs).mem h2

theorem pyDigitsRest_of_all : ∀ {l : List Char}, (∀ x ∈ l, isDigitC x = true) →
    pyDigitsRest l = true := by
  intro l
  induction l with
  | nil => intro _; rfl
  | cons c rest ih =>
    intro h
    cases rest with
    | nil =>
      simp only [pyDigitsRest]
      exact h c (List.mem_cons_self c [])
    | cons d rest2 =>
      have hc := h c (List.mem_cons_self _ _)
      rw [pyDigitsRest, if_neg (ne_underscore_of_isDigitC hc), hc,
          ih (fun x hx => h x (List.mem_cons_of_mem c hx))]
      rfl

/-- A string of decimal digits is accepted by the `int()` model, with a
non-negative value. -/
theorem isDigit_pyInt {s : String} (h : pyIsDigit s = true) :
    ∃ n : Nat, pyInt? s = some (n : Int) := by
  simp only [pyIsDigit, Bool.and_eq_true, Bool.not_eq_true', List.all_eq_true] at h
  obtain ⟨hne, hall⟩ := h
  have hstrip : pyStripChars s.toList = s.toList :=
    pyStripChars_eq_self_of_all (fun x hx => isWs_false_of_isDigitC (hall x hx))
  cases hl : s.toList with
  | nil => rw [hl] at hne; simp at hne
  | cons c rest =>
    have hc : isDigitC c = true := hall c (hl ▸ List.mem_cons_self c rest)
    have hrest : pyDigitsRest rest = true :=
      pyDigitsRest_of_all (fun x hx => hall x (hl ▸ List.mem_cons_of_mem c hx))
    have hcore : pyIntCore? (c :: rest) =
        some (digitsVal ((c :: rest).filter (fun x => x ≠ '_'))) := by
      simp [pyIntCore?, hc, hrest]
    refine ⟨digitsVal ((c :: rest).filter (fun x => x ≠ '_')), ?_⟩
    unfold pyInt?
    rw [hstrip, hl]
    split
    case h_1 rest' heq =>
      injection heq with h1 h2
      exact absurd h1 (ne_dash_of_isDigitC hc)
    case h_2 rest' heq =>
      injection heq with h1 h2
      exact absurd h1 (ne_plus_of_isDigitC hc)
    case h_3 =>
      rw [hcore]
      rfl

/-- `pyIntCore?` only produces natural numbers, so an accepted string
without an ASCII minus sign has a non-negative value. -/
theorem pyInt_nonneg_of_no_dash {s : String} {n : Int}
    (hd : '-' ∉ s.toList) (h : pyInt? s = some n) : 0 ≤ n := by
  unfold pyInt? at h
  split at h
  case h_1 rest heq =>
    exact absurd (mem_pyStripChars (heq ▸ List.mem_cons_self '-' rest)) hd
  case h_2 rest heq =>
    obtain ⟨m, _, hm⟩ := Option.map_eq_some'.mp h
    omega
  case h_3 =>
    obtain ⟨m, _, hm⟩ := Option.map_eq_some'.mp h
    omega

theorem splitOnChar_ne_nil (sep : Char) : ∀ (cs : List Char), splitOnChar sep cs ≠ [] := by
  intro cs
  cases cs with
  | nil => simp [splitOnChar]
  | cons c rest =>
    unfold splitOnChar
    split
    · simp
    · split <;> simp

theorem sep_not_mem_splitOnChar (sep : Char) :
    ∀ (cs : List Char) (g : List Char), g ∈ splitOnChar sep cs → sep ∉ g := by
  intro cs
  induction cs with
  | nil =>
    intro g hg
    simp only [splitOnChar, List.mem_singleton] at hg
    simp [hg]
  | cons c rest ih =>
    intro g hg
    unfold splitOnChar at hg
    split at hg
    case h_1 heq => exact absurd heq (splitOnChar_ne_nil sep rest)
    case h_2 g' gs heq =>
      split at hg
      case isTrue hcs =>
        rcases List.mem_cons.mp hg with h1 | h2
        · simp [h1]
        · exact ih g (heq ▸ h2)
      case isFalse hcs =>
        rcases List.mem_cons.mp hg with h1 | h2
        · subst h1
          intro hmem
          rcases List.mem_cons.mp hmem with h3 | h4
          · exact hcs h3.symm
          · exact ih g' (heq ▸ List.mem_cons_self g' gs) h4
        · exact ih g (heq ▸ List.mem_cons_of_mem g' h2)

/-- The append-in-a-loop pattern of the source equals `filterMap`. -/
theorem foldl_opt_append {α β : Type} (f : α → Option β) :
    ∀ (l : List α) (acc : List β),
      l.foldl (fun acc x =>
        match f x with
        | none => acc
        | some b => acc ++ [b]) acc = acc ++ l.filterMap f := by
  intro l
  induction l with
  | nil => intro acc; simp
  | cons a l ih =>
    intro acc
    rw [List.foldl_cons, ih]
    cases h : f a <;> simp [h, List.filterMap_cons]

/-- Characterisation of Python `max(..., key=...)`: the result is an
element of the list, its key bounds every key, and every element strictly
before it has a strictly smaller key (the first maximum wins). -/
theorem pyMaxBy_spec {α : Type} (key : α → Int) :
    ∀ (xs : List α) (x : α),
      ∃ l1 l2, x :: xs = l1 ++ pyMaxBy key x xs :: l2
        ∧ (∀ y ∈ l1, key y < key (pyMaxBy key x xs))
        ∧ (∀ y ∈ x :: xs, key y ≤ key (pyMaxBy key x xs)) := by
  intro xs
  induction xs with
  | nil =>
    intro x
    exact ⟨[], [], by simp [pyMaxBy], by simp, by simp [pyMaxBy]⟩
  | cons y ys ih =>
    intro x
    have hstep : pyMaxBy key x (y :: ys) = pyMaxBy key (if key x < key y then y else x) ys := by
      simp [pyMaxBy]
    by_cases hxy : key x < key y
    · obtain ⟨l1, l2, hsplit, hlt, hle⟩ := ih y
      rw [if_pos hxy] at hstep
      refine ⟨x :: l1, l2, ?_, ?_, ?_⟩
      · rw [hstep, List.cons_append, hsplit]
      · intro z hz
        rw [hstep]
        rcases List.mem_cons.mp hz with h1 | h2
        · subst h1
          exact lt_of_lt_of_le hxy (hle y (List.mem_cons_self y ys))
        · exact hlt z h2
      · intro z hz
        rw [hstep]
        rcases List.mem_cons.mp hz with h1 | h2
        · subst h1
          exact le_of_lt (lt_of_lt_of_le hxy (hle y (List.mem_cons_self y ys)))
        · exact hle z h2
    · obtain ⟨l1, l2, hsplit, hlt, hle⟩ := ih x
      rw [if_neg hxy] at hstep
      have hyx : key y ≤ key x := le_of_not_lt hxy
      cases l1 with
      | nil =>
        simp only [List.nil_append] at hsplit
        injection hsplit with hx hys
        refine ⟨[], y :: ys, ?_, ?_, ?_⟩
        · rw [hstep, ← hx]
          simp
        · simp
        · intro z hz
          rw [hstep]
          rcases List.mem_cons.mp hz with h1 | h2
          · rw [h1]; exact hle x (List.mem_cons_self x ys)
          · rcases List.mem_cons.mp h2 with h3 | h4
            · rw [h3]; exact le_trans hyx (hle x (List.mem_cons_self x ys))
            · exact hle z (List.mem_cons_of_mem x h4)
      | cons a l1' =>
        simp only [List.cons_append] at hsplit
        injection hsplit with hx hys
        subst hx
        refine ⟨x :: y :: l1', l2, ?_, ?_, ?_⟩
        · rw [hstep]
          have h5 := congrArg (fun l => x :: y :: l) hys
          simpa using h5
        · intro z hz
          rw [hstep]
          have hxlt : key x < key (pyMaxBy key x ys) := hlt x (List.mem_cons_self x l1')
          rcases List.mem_cons.mp hz with h1 | h2
          · subst h1; exact hxlt
          · rcases List.mem_cons.mp h2 with h3 | h4
            · subst h3; exact lt_of_le_of_lt hyx hxlt
            · exact hlt z (List.mem_cons_of_mem x h4)
        · intro z hz
          rw [hstep]
          have hxle : key x ≤ key (pyMaxBy key x ys) := hle x (List.mem_cons_self x ys)
          rcases List.mem_cons.mp hz with h1 | h2
          · subst h1; exact hxle
          · rcases List.mem_cons.mp h2 with h3 | h4
            · subst h3; exact le_trans hyx hxle
            · exact hle z (List.mem_cons_of_mem x h4)

theorem dictLookup_dictInsert :
    ∀ (d : List (String × String)) (k v k' : String),
      dictLookup (dictInsert d k v) k' = if k' = k then some v else dictLookup d k' := by
  intro d
  induction d with
  | nil =>
    intro k v k'
    by_cases h : k' = k
    · simp [dictInsert, dictLookup, h]
    · simp [dictInsert, dictLookup, h, Ne.symm h]
  | cons p rest ih =>
    intro k v k'
    obtain ⟨k1, v1⟩ := p
    by_cases h1 : k1 = k
    · subst h1
      by_cases h2 : k1 = k'
      · subst h2
        simp [dictInsert, dictLookup]
      · simp [dictInsert, dictLookup, h2, Ne.symm h2]
    · by_cases h2 : k1 = k'
      · subst h2
        simp [dictInsert, dictLookup, h1, Ne.symm h1]
      · simp [dictInsert, dictLookup, h1, h2, ih k v k']

theorem ne_empty_of_og_prefix {p : String}
    (h : "og:".toList.isPrefixOf p.toList = true) : p ≠ "" := by
  intro hp
  subst hp
  simp at h

/-- Not-selected meta elements contribute no spec entry. -/
theorem ogSpecF_none_of_not_selected {k : String} {po : Option String} {co : Option String}
    (h : selectedMeta ⟨po, co⟩ = false) : ogSpecF k ⟨po, co⟩ = none := by
  cases po with
  | none => cases co <;> rfl
  | some p =>
    cases co with
    | none => rfl
    | some c =>
      have hpre : "og:".toList.isPrefixOf p.toList = false := h
      unfold ogSpecF
      dsimp only
      rw [if_neg]
      rintro ⟨h1, -, -⟩
      rw [hpre] at h1
      exact absurd h1 (by simp)

/-- C9: the Open Graph mapping holds exactly the qualifying meta
elements (property present and starting with "og:", content present and
non-empty): looking up any property name in `og_metadata` yields the
content of the last qualifying meta element carrying it in document
order, and nothing when no qualifying element carries it — so elements
without (non-empty) content contribute nothing and later occurrences
overwrite earlier ones. -/
theorem c9_og_metadata_last_wins (metas : List MetaTag) (k : String) :
    dictLookup (og_metadata metas) k = (ogSpecEntries metas k).getLast? := by
  induction metas using List.reverseRecOn with
  | nil => rfl
  | append_singleton metas m ih =>
    unfold og_metadata ogSpecEntries at ih ⊢
    rw [List.filter_append, List.foldl_append, List.filterMap_append, List.getLast?_append]
    obtain ⟨po, co⟩ := m
    cases hsel : selectedMeta ⟨po, co⟩ with
    | false =>
      rw [List.filter_cons_of_neg (by rw [hsel]; exact Bool.false_ne_true),
          List.filter_nil,
          List.filterMap_cons_none (ogSpecF_none_of_not_selected hsel),
          List.filterMap_nil, List.foldl_nil, List.getLast?_nil, Option.none_or]
      exact ih
    | true =>
      rw [List.filter_cons_of_pos hsel, List.filter_nil, List.foldl_cons, List.foldl_nil]
      cases po with
      | none => exact absurd hsel (by simp [selectedMeta])
      | some p =>
        have hpre : "og:".toList.isPrefixOf p.toList = true := hsel
        have hpne : p ≠ "" := ne_empty_of_og_prefix hpre
        cases co with
        | none =>
          rw [show ogStep (List.foldl ogStep [] (List.filter selectedMeta metas))
                ⟨some p, none⟩ = List.foldl ogStep [] (List.filter selectedMeta metas) from rfl,
              List.filterMap_cons_none (show ogSpecF k ⟨some p, none⟩ = none from rfl),
              List.filterMap_nil, List.getLast?_nil, Option.none_or]
          exact ih
        | some c =>
          by_cases hce : c = ""
          · subst hce
            rw [show ogStep (List.foldl ogStep [] (List.filter selectedMeta metas))
                  ⟨some p, some ""⟩ = List.foldl ogStep [] (List.filter selectedMeta metas) by
                unfold ogStep
                dsimp only
                rw [if_neg]
                rintro ⟨-, h2⟩
                exact h2 rfl,
                List.filterMap_cons_none (show ogSpecF k ⟨some p, some ""⟩ = none by
                  unfold ogSpecF
                  dsimp only
                  rw [if_neg]
                  rintro ⟨-, -, h3⟩
                  exact h3 rfl),
                List.filterMap_nil, List.getLast?_nil, Option.none_or]
            exact ih
          · rw [show ogStep (List.foldl ogStep [] (List.filter selectedMeta metas))
                  ⟨some p, some c⟩ =
                  dictInsert (List.foldl ogStep [] (List.filter selectedMeta metas)) p c by
                unfold ogStep
                dsimp only
                rw [if_pos ⟨hpne, hce⟩],
                dictLookup_dictInsert]
            by_cases hpk : p = k
            · subst hpk
              rw [if_pos rfl,
                  List.filterMap_cons_some (show ogSpecF p ⟨some p, some c⟩ = some c by
                    unfold ogSpecF
                    dsimp only
                    rw [if_pos ⟨hpre, rfl, hce⟩]),
                  List.filterMap_nil, List.getLast?_singleton, Option.or_some]
            · rw [if_neg (Ne.symm hpk),
                  List.filterMap_cons_none (show ogSpecF k ⟨some p, some c⟩ = none by
                    unfold ogSpecF
                    dsimp only
                    rw [if_neg]
                    rintro ⟨-, h2, -⟩
                    exact hpk h2),
                  List.filterMap_nil, List.getLast?_nil, Option.none_or]
              exact ih

/-! ### The error-tracking variants never raise -/

theorem clsParseE_catch (cls : String) :
    (match clsParseE cls with
     | .ok v => some v
     | .error _ => none) =
    (match (pySplit cls '-').get? 1 with
     | some tok => pyInt? tok
     | none => none) := by
  unfold clsParseE indexE
  cases (pySplit cls '-').get? 1 with
  | none => rfl
  | some tok =>
    unfold pyIntE
    cases h : pyInt? tok <;> simp only [h]

theorem extract_post_idE_eq (classes : List String) :
    extract_post_idE classes = extract_post_id classes := by
  unfold extract_post_idE extract_post_id
  congr 1
  funext cls
  unfold clsParse?
  by_cases h : "post-".toList.isPrefixOf cls.toList = true
  · rw [if_pos h, if_pos h, clsParseE_catch]
  · rw [if_neg h, if_neg h]

theorem pyIntE_ok_of_isDigit {c : String} (h : pyIsDigit c = true) :
    pyIntE c = .ok ((pyInt? c).getD 0) := by
  obtain ⟨n, hn⟩ := isDigit_pyInt h
  unfold pyIntE
  rw [hn]
  rfl

theorem all_or_nondec_eq {l : List Char}
    (h : ∀ ch ∈ l, isDigitNonDec ch = false) :
    l.all (fun ch => isDigitC ch || isDigitNonDec ch) = l.all isDigitC := by
  induction l with
  | nil => rfl
  | cons a rest ih =>
    rw [List.all_cons, List.all_cons, h a (List.mem_cons_self a rest),
        ih (fun ch hch => h ch (List.mem_cons_of_mem a hch))]
    simp

/-- On a text without non-decimal digit characters, the faithful
`isdigit()` agrees with its decimal fragment. -/
theorem pyIsDigitFull_eq {c : String}
    (h : ∀ ch ∈ c.toList, isDigitNonDec ch = false) :
    pyIsDigitFull c = pyIsDigit c := by
  unfold pyIsDigitFull pyIsDigit
  rw [all_or_nondec_eq h]

/-- When no cleaned link text contains a non-decimal digit character,
the `page_numbers` loop cannot raise and computes the pure value. -/
theorem page_numbersE_ok :
    ∀ (texts : List String) (acc : List Int),
      (∀ t ∈ texts, ∀ ch ∈ (cleanLinkText t).toList, isDigitNonDec ch = false) →
      page_numbersE texts acc =
        .ok (texts.foldl (fun acc t =>
          let c := cleanLinkText t
          if pyIsDigit c then acc ++ [(pyInt? c).getD 0] else acc) acc) := by
  intro texts
  induction texts with
  | nil => intro acc _; rfl
  | cons t rest ih =>
    intro acc hdec
    rw [page_numbersE, List.foldl_cons,
        pyIsDigitFull_eq (hdec t (List.mem_cons_self t rest))]
    by_cases h : pyIsDigit (cleanLinkText t) = true
    · rw [if_pos h, pyIntE_ok_of_isDigit h]
      simp only [h, if_true]
      exact ih _ (fun x hx => hdec x (List.mem_cons_of_mem t hx))
    · rw [if_neg h]
      simp only [h, if_false]
      exact ih _ (fun x hx => hdec x (List.mem_cons_of_mem t hx))

/-- `get_total_pages` cannot raise on documents whose cleaned link
texts contain no non-decimal digit character: `int()` then succeeds on
every `isdigit()`-accepted text and `max()` is guarded by the emptiness
test. -/
theorem get_total_pagesE_ok_of_decimal (linkTexts : List String)
    (hdec : ∀ t ∈ linkTexts, ∀ ch ∈ (cleanLinkText t).toList, isDigitNonDec ch = false) :
    get_total_pagesE linkTexts = .ok (get_total_pages linkTexts) := by
  unfold get_total_pagesE get_total_pages
  rw [page_numbersE_ok linkTexts [] hdec, ← page_numbers]
  cases page_numbers linkTexts with
  | nil => rfl
  | cons x xs => rfl

/-- A link text whose cleaned form `isdigit()` accepts but `int()`
rejects makes the `page_numbers` loop raise `ValueError`. -/
theorem page_numbersE_error_of_bad :
    ∀ (texts : List String) (acc : List Int) (t : String), t ∈ texts →
      pyIsDigitFull (cleanLinkText t) = true → pyInt? (cleanLinkText t) = none →
      page_numbersE texts acc = .error .valueError := by
  intro texts
  induction texts with
  | nil => intro acc t ht _ _; exact absurd ht (List.not_mem_nil t)
  | cons a rest ih =>
    intro acc t ht hdig hnone
    rw [page_numbersE]
    rcases List.mem_cons.mp ht with h1 | h2
    · rw [← h1, if_pos hdig]
      unfold pyIntE
      rw [hnone]
    · by_cases hda : pyIsDigitFull (cleanLinkText a) = true
      · rw [if_pos hda]
        unfold pyIntE
        cases hpa : pyInt? (cleanLinkText a) with
        | none => rfl
        | some v => exact ih (acc ++ [v]) t h2 hdig hnone
      · rw [if_neg hda]
        exact ih acc t h2 hdig hnone

/-- Hence `get_total_pages` raises an uncaught `ValueError` on any
document with such a link text. -/
theorem get_total_pagesE_error_of_bad {linkTexts : List String} {t : String}
    (ht : t ∈ linkTexts) (hdig : pyIsDigitFull (cleanLinkText t) = true)
    (hnone : pyInt? (cleanLinkText t) = none) :
    get_total_pagesE linkTexts = .error .valueError := by
  unfold get_total_pagesE
  rw [page_numbersE_error_of_bad linkTexts [] t ht hdig hnone]

/-- `get_page` cannot raise: the only fallible operations sit inside the
source's `try/except`. -/
theorem get_pageE_ok (doc : ListingDoc) :
    get_pageE doc = .ok (get_page doc) := by
  unfold get_pageE get_page
  congr 2
  funext images a
  rw [extract_post_idE_eq]

theorem parseEntryE_eq (e : String) : parseEntryE e = parseEntry? e := by
  unfold parseEntryE parseEntry?
  by_cases h : pyStrip e = ""
  · rw [if_pos h, if_pos h]
  · rw [if_neg h, if_neg h]
    cases pyRSplitWs1 (pyStrip e) with
    | none => rfl
    | some uw =>
      obtain ⟨u, w⟩ := uw
      unfold pyIntE parseWidth?
      cases h : pyInt? (String.mk (rstripW w.toList)) <;>
        simp only [String.toList] at h <;> simp [h]

theorem processImgE_ok (img : ImgTag) :
    processImgE img = .ok (processImg img) := by
  unfold processImgE processImg
  have hentries : (pySplit (img.srcset.getD "") ',').filterMap parseEntryE =
      parseSrcset (img.srcset.getD "") := by
    unfold parseSrcset
    congr 1
    funext e
    exact parseEntryE_eq e
  by_cases h : img.srcset.getD "" ≠ ""
  · rw [if_pos h, if_pos h, hentries]
    cases parseSrcset (img.srcset.getD "") with
    | nil => rfl
    | cons e es => rfl
  · rw [if_neg h, if_neg h]
    cases img.src with
    | none => rfl
    | some s =>
      dsimp only
      by_cases hs : s ≠ ""
      · rw [if_pos hs, if_pos hs]
      · rw [if_neg hs, if_neg hs]

theorem all_imagesE_ok :
    ∀ (imgs : List ImgTag) (acc : List ImageVariant),
      all_imagesE imgs acc =
        .ok (imgs.foldl (fun acc img =>
          match processImg img with
          | none => acc
          | some v => acc ++ [v]) acc) := by
  intro imgs
  induction imgs with
  | nil => intro acc; rfl
  | cons img rest ih =>
    intro acc
    rw [all_imagesE, processImgE_ok img, List.foldl_cons]
    cases processImg img with
    | none => exact ih acc
    | some v => exact ih (acc ++ [v])

/-- `get_image_info` cannot raise: `int()` is caught, `max()` is guarded
by `if entries:`, the subscript by `if all_images`. -/
theorem get_image_infoE_ok (doc : DetailDoc) (image_id : Int) :
    get_image_infoE doc image_id = .ok (get_image_info doc image_id) := by
  have hpost : (match doc.articles with
      | [] => none
      | cls :: _ => extract_post_idE cls) =
      (match doc.articles with
      | [] => (none : Option Int)
      | cls :: _ => extract_post_id cls) := by
    cases doc.articles with
    | nil => rfl
    | cons cls rest => exact extract_post_idE_eq cls
  unfold get_image_infoE get_image_info
  rw [hpost, all_imagesE_ok (doc.imgs.filter selectedImg) []]
  cases hai : (doc.imgs.filter selectedImg).foldl (fun acc img =>
      match processImg img with
      | none => acc
      | some v => acc ++ [v]) [] with
  | nil => rfl
  | cons v vs => rfl

/-! ### Characterisations used by the claims -/

/-- The `page_numbers` loop as a `filterMap` over the link texts. -/
theorem page_numbers_eq_filterMap (linkTexts : List String) :
    page_numbers linkTexts = linkTexts.filterMap (fun t =>
      if pyIsDigit (cleanLinkText t) then some ((pyInt? (cleanLinkText t)).getD 0)
      else none) := by
  have hgen : ∀ (l : List String) (acc : List Int),
      l.foldl (fun acc t =>
        let c := cleanLinkText t
        if pyIsDigit c then acc ++ [(pyInt? c).getD 0] else acc) acc =
      acc ++ l.filterMap (fun t =>
        if pyIsDigit (cleanLinkText t) then some ((pyInt? (cleanLinkText t)).getD 0)
        else none) := by
    intro l
    induction l with
    | nil => intro acc; simp
    | cons t rest ih =>
      intro acc
      rw [List.foldl_cons]
      by_cases h : pyIsDigit (cleanLinkText t) = true
      · simp only [h, if_true, List.filterMap_cons]
        rw [ih]
        simp
      · simp only [h, if_false, List.filterMap_cons]
        rw [ih]
        simp [h]
  unfold page_numbers
  rw [hgen]
  rfl

/-- Membership in `page_numbers`: exactly the cleaned all-digit link
texts, with their parsed value. -/
theorem mem_page_numbers_iff (linkTexts : List String) (c : Int) :
    c ∈ page_numbers linkTexts ↔
      ∃ t ∈ linkTexts, pyIsDigit (cleanLinkText t) = true ∧
        pyInt? (cleanLinkText t) = some c := by
  rw [page_numbers_eq_filterMap, List.mem_filterMap]
  constructor
  · rintro ⟨t, ht, hf⟩
    by_cases h : pyIsDigit (cleanLinkText t) = true
    · rw [if_pos h] at hf
      obtain ⟨n, hn⟩ := isDigit_pyInt h
      refine ⟨t, ht, h, ?_⟩
      rw [hn] at hf ⊢
      simpa using hf
    · rw [if_neg h] at hf
      exact absurd hf (by simp)
  · rintro ⟨t, ht, h, hv⟩
    refine ⟨t, ht, ?_⟩
    rw [if_pos h, hv]
    rfl

/-- All candidate page numbers are non-negative. -/
theorem page_numbers_nonneg {linkTexts : List String} {c : Int}
    (h : c ∈ page_numbers linkTexts) : 0 ≤ c := by
  obtain ⟨t, -, hdig, hval⟩ := (mem_page_numbers_iff linkTexts c).mp h
  obtain ⟨n, hn⟩ := isDigit_pyInt hdig
  rw [hn] at hval
  injection hval with hv
  omega

/-- `get_page` as a `filterMap`: one entry per article whose id
extraction succeeds, in order; the others contribute nothing. -/
theorem get_page_eq_filterMap (doc : ListingDoc) :
    get_page doc = doc.articles.filterMap (fun a =>
      (extract_post_id a.classes).map (mkEntry a)) := by
  have hgen : ∀ (l : List Article) (acc : List ListingEntry),
      l.foldl (fun images a =>
        match extract_post_id a.classes with
        | none => images
        | some i => images ++ [mkEntry a i]) acc =
      acc ++ l.filterMap (fun a => (extract_post_id a.classes).map (mkEntry a)) := by
    intro l
    induction l with
    | nil => intro acc; simp
    | cons a rest ih =>
      intro acc
      rw [List.foldl_cons]
      cases h : extract_post_id a.classes with
      | none => simp only [h, List.filterMap_cons, Option.map_none']; rw [ih]
      | some i =>
        simp only [h, List.filterMap_cons, Option.map_some']
        rw [ih]
        simp
  unfold get_page
  rw [hgen]
  rfl

/-- `findSome?` skips a prefix on which the function fails. -/
theorem findSome?_append_of_none {α β : Type} (f : α → Option β) :
    ∀ (l1 l2 : List α), (∀ c ∈ l1, f c = none) →
      (l1 ++ l2).findSome? f = l2.findSome? f := by
  intro l1
  induction l1 with
  | nil => intro l2 _; rfl
  | cons c rest ih =>
    intro l2 h
    rw [List.cons_append, List.findSome?_cons, h c (List.mem_cons_self c rest)]
    exact ih l2 (fun x hx => h x (List.mem_cons_of_mem c hx))

/-- The first class token whose parse succeeds decides the id. -/
theorem extract_post_id_first (l1 : List String) (cls : String) (l2 : List String)
    (n : Int) (hfail : ∀ c ∈ l1, clsParse? c = none) (hcls : clsParse? cls = some n) :
    extract_post_id (l1 ++ cls :: l2) = some n := by
  unfold extract_post_id
  rw [findSome?_append_of_none clsParse? l1 (cls :: l2) hfail, List.findSome?_cons, hcls]

/-- A successful parse of one class token is non-negative: the token text
between the first and second hyphen cannot contain the sign character. -/
theorem clsParse?_nonneg {cls : String} {n : Int}
    (h : clsParse? cls = some n) : 0 ≤ n := by
  unfold clsParse? at h
  split at h
  · split at h
    case h_1 tok heq =>
      have htokmem : tok ∈ pySplit cls '-' := List.get?_mem heq
      obtain ⟨g, hg, hgeq⟩ := List.mem_map.mp htokmem
      have hnd : '-' ∉ tok.toList := by
        rw [← hgeq]
        exact sep_not_mem_splitOnChar '-' cls.toList g hg
      exact pyInt_nonneg_of_no_dash hnd h
    case h_2 => exact absurd h (by simp)
  · exact absurd h (by simp)

/-- Ids extracted from class-token lists are non-negative. -/
theorem extract_post_id_nonneg {classes : List String} {n : Int}
    (h : extract_post_id classes = some n) : 0 ≤ n := by
  unfold extract_post_id at h
  induction classes with
  | nil => exact absurd h (by simp)
  | cons c rest ih =>
    rw [List.findSome?_cons] at h
    cases hc : clsParse? c with
    | none => rw [hc] at h; exact ih h
    | some m =>
      rw [hc] at h
      injection h with hm
      rw [← hm]
      exact clsParse?_nonneg hc

/-! ### The claims -/

/-- C1: for every detail-page document and fallback id, the returned
`full_resolution_url` equals the url of the first element of
`all_images` when `all_images` is non-empty, and is absent when
`all_images` is empty. -/
theorem c1_full_resolution_url_is_head (doc : DetailDoc) (image_id : Int) :
    ((get_image_info doc image_id).all_images = [] →
      (get_image_info doc image_id).full_resolution_url = none)
    ∧ (∀ (v : ImageVariant) (vs : List ImageVariant),
        (get_image_info doc image_id).all_images = v :: vs →
        (get_image_info doc image_id).full_resolution_url = some v.url) := by
  constructor
  · intro h
    unfold get_image_info at h ⊢
    dsimp only at h ⊢
    rw [h]
  · intro v vs h
    unfold get_image_info at h ⊢
    dsimp only at h ⊢
    rw [h]

theorem c1_witness :
    (get_image_info ⟨[], none, none, [], none, none, [], []⟩ 5).all_images = [] ∧
    (get_image_info ⟨[], none, none, [], none, none, [], []⟩ 5).full_resolution_url = none :=
  ⟨rfl, (c1_full_resolution_url_is_head ⟨[], none, none, [], none, none, [], []⟩ 5).1 rfl⟩

/-- C3 (amended): the id returned by `get_image_info` is the integer
extracted from the first article's class tokens when that integer is
non-zero; when there is no article, or no token yields a valid integer,
or the extracted integer is zero (Python `post_id or image_id` treats 0
as falsy), the caller-supplied fallback id is returned. -/
theorem c3_detail_id_amended (doc : DetailDoc) (fallback : Int) :
    (doc.articles = [] → (get_image_info doc fallback).id = fallback)
    ∧ (∀ cls rest, doc.articles = cls :: rest → extract_post_id cls = none →
        (get_image_info doc fallback).id = fallback)
    ∧ (∀ cls rest, doc.articles = cls :: rest → extract_post_id cls = some 0 →
        (get_image_info doc fallback).id = fallback)
    ∧ (∀ cls rest n, doc.articles = cls :: rest → extract_post_id cls = some n →
        n ≠ 0 → (get_image_info doc fallback).id = n) := by
  refine ⟨?_, ?_, ?_, ?_⟩
  · intro h
    unfold get_image_info
    dsimp only
    rw [h]
  · intro cls rest h hex
    unfold get_image_info
    dsimp only
    rw [h]
    dsimp only
    rw [hex]
  · intro cls rest h hex
    unfold get_image_info
    dsimp only
    rw [h]
    dsimp only
    rw [hex]
    dsimp only
    rw [if_pos rfl]
  · intro cls rest n h hex hn
    unfold get_image_info
    dsimp only
    rw [h]
    dsimp only
    rw [hex]
    dsimp only
    rw [if_neg hn]

/-- C3 counterexample: the first article's class token `post-0` yields
the valid integer 0, yet the returned id is the fallback 7, not 0 — the
claim as stated fails on a zero id. -/
theorem c3_counterexample :
    extract_post_id ["post-0"] = some 0 ∧
    (get_image_info ⟨[["post-0"]], none, none, [], none, none, [], []⟩ 7).id = 7 := by
  refine ⟨by decide, by decide⟩

theorem c3_witness :
    extract_post_id ["some-class", "post-12"] = some 12 ∧
    (get_image_info ⟨[["some-class", "post-12"]], none, none, [], none, none, [], []⟩ 7).id = 12 :=
  ⟨by decide,
    (c3_detail_id_amended ⟨[["some-class", "post-12"]], none, none, [], none, none, [], []⟩ 7).2.2.2
      ["some-class", "post-12"] [] 12 rfl (by decide) (by decide)⟩

/-- C10: every id extracted from a class-token list is non-negative (the
token between the first and second hyphen cannot contain the sign
character, so Python `int` cannot produce a negative value from it);
hence every `get_page` entry id is non-negative, and the id returned by
`get_image_info` is non-negative whenever the fallback id is. -/
theorem c10_ids_nonneg :
    (∀ (classes : List String) (n : Int), extract_post_id classes = some n → 0 ≤ n)
    ∧ (∀ (doc : ListingDoc) (e : ListingEntry), e ∈ get_page doc → 0 ≤ e.id)
    ∧ (∀ (doc : DetailDoc) (fallback : Int), 0 ≤ fallback →
        0 ≤ (get_image_info doc fallback).id) := by
  refine ⟨fun _ _ h => extract_post_id_nonneg h, ?_, ?_⟩
  · intro doc e he
    rw [get_page_eq_filterMap] at he
    obtain ⟨a, -, hfa⟩ := List.mem_filterMap.mp he
    cases hex : extract_post_id a.classes with
    | none => rw [hex] at hfa; exact absurd hfa (by simp)
    | some i =>
      rw [hex] at hfa
      simp only [Option.map_some'] at hfa
      injection hfa with hfa
      rw [← hfa]
      exact extract_post_id_nonneg hex
  · intro doc fallback hfb
    unfold get_image_info
    dsimp only
    cases hart : doc.articles with
    | nil => exact hfb
    | cons cls rest =>
      dsimp only
      cases hex : extract_post_id cls with
      | none => exact hfb
      | some n =>
        dsimp only
        by_cases hn : n = 0
        · rw [if_pos hn]; exact hfb
        · rw [if_neg hn]; exact extract_post_id_nonneg hex

theorem c10_witness :
    0 ≤ (3 : Int) ∧
    0 ≤ (get_image_info ⟨[["post-8"]], none, none, [], none, none, [], []⟩ 3).id :=
  ⟨by decide, c10_ids_nonneg.2.2 ⟨[["post-8"]], none, none, [], none, none, [], []⟩ 3 (by decide)⟩

/-- C6: `get_total_pages` returns the maximum over the candidate page
numbers — a candidate being the parsed value of a trimmed link text with
commas removed when the cleaned text is all decimal digits — and 1 when
no candidate exists; thousands-separated texts such as "1,263" yield
candidate 1263. -/
theorem c6_total_pages_max (linkTexts : List String) :
    (page_numbers linkTexts = [] → get_total_pages linkTexts = 1)
    ∧ (page_numbers linkTexts ≠ [] →
        get_total_pages linkTexts ∈ page_numbers linkTexts ∧
        ∀ c ∈ page_numbers linkTexts, c ≤ get_total_pages linkTexts)
    ∧ (∀ c : Int, c ∈ page_numbers linkTexts ↔
        ∃ t ∈ linkTexts, pyIsDigit (cleanLinkText t) = true ∧
          pyInt? (cleanLinkText t) = some c)
    ∧ cleanLinkText " 1,263 " = "1263"
    ∧ get_total_pages ["Next", "1,263", "52", "Previous"] = 1263 := by
  refine ⟨?_, ?_, mem_page_numbers_iff linkTexts, by decide, by decide⟩
  · intro h
    unfold get_total_pages
    rw [h]
  · intro h
    unfold get_total_pages
    cases hpn : page_numbers linkTexts with
    | nil => exact absurd hpn h
    | cons x xs =>
      obtain ⟨l1, l2, hsplit, -, hle⟩ := pyMaxBy_spec id xs x
      constructor
      · show pyMaxBy id x xs ∈ x :: xs
        rw [hsplit]
        exact List.mem_append_right l1 (List.mem_cons_self _ l2)
      · intro c hc
        exact hle c hc

theorem c6_witness :
    get_total_pages ["3", "10"] ∈ page_numbers ["3", "10"] ∧
    ∀ c ∈ page_numbers ["3", "10"], c ≤ get_total_pages ["3", "10"] :=
  (c6_total_pages_max ["3", "10"]).2.1 (by decide)

/-- C7 (amended): `get_total_pages` never returns a negative value, and
returns at least 1 whenever every candidate is at least 1 (in particular
when no candidate exists); but a document whose numeric link texts all
clean to zero makes it return 0, so the unconditional "never 0" of the
claim fails. -/
theorem c7_total_pages_lower_bound_amended (linkTexts : List String) :
    0 ≤ get_total_pages linkTexts
    ∧ ((∀ c ∈ page_numbers linkTexts, 1 ≤ c) → 1 ≤ get_total_pages linkTexts) := by
  constructor
  · unfold get_total_pages
    cases hpn : page_numbers linkTexts with
    | nil => decide
    | cons x xs =>
      show (0 : Int) ≤ pyMaxBy id x xs
      have hmem : pyMaxBy id x xs ∈ page_numbers linkTexts := by
        rw [hpn]
        obtain ⟨l1, l2, hsplit, -, -⟩ := pyMaxBy_spec id xs x
        rw [hsplit]
        exact List.mem_append_right l1 (List.mem_cons_self _ l2)
      exact page_numbers_nonneg hmem
  · intro h
    unfold get_total_pages
    cases hpn : page_numbers linkTexts with
    | nil => decide
    | cons x xs =>
      show (1 : Int) ≤ pyMaxBy id x xs
      refine h _ ?_
      rw [hpn]
      obtain ⟨l1, l2, hsplit, -, -⟩ := pyMaxBy_spec id xs x
      rw [hsplit]
      exact List.mem_append_right l1 (List.mem_cons_self _ l2)

/-- C7 counterexample: a pagination link whose text is "0" produces the
candidate 0 and `get_total_pages` returns 0, contradicting the claim
that the result is never 0 for every document. -/
theorem c7_counterexample : get_total_pages ["0"] = 0 := by decide

theorem c7_witness : 1 ≤ get_total_pages ["5"] :=
  (c7_total_pages_lower_bound_amended ["5"]).2 (by decide)

/-- C4: `get_page` keeps exactly the articles whose class-token list
yields an id — one entry each, in order, built from the article's own
attributes — where the id is decided by the first class token whose
parse succeeds (tokens are tried in order, failures skipped); an article
with no successful token is skipped entirely, contributing no entry and
no error. -/
theorem c4_listing_id_extraction (doc : ListingDoc) :
    get_page doc = doc.articles.filterMap (fun a =>
      (extract_post_id a.classes).map (mkEntry a))
    ∧ (∀ (l1 : List String) (cls : String) (l2 : List String) (n : Int),
        (∀ c ∈ l1, clsParse? c = none) → clsParse? cls = some n →
        extract_post_id (l1 ++ cls :: l2) = some n)
    ∧ (∀ a : Article, extract_post_id a.classes = none →
        get_page ⟨a :: doc.articles⟩ = get_page doc) := by
  refine ⟨get_page_eq_filterMap doc, ?_, ?_⟩
  · intro l1 cls l2 n hfail hcls
    exact extract_post_id_first l1 cls l2 n hfail hcls
  · intro a h
    rw [get_page_eq_filterMap, get_page_eq_filterMap]
    show (a :: doc.articles).filterMap _ = _
    rw [List.filterMap_cons_none]
    rw [h]
    rfl

theorem c4_witness :
    extract_post_id ["some-class", "post-abc", "post-7"] = some 7 ∧
    get_page ⟨[⟨["nope"], some "/images/9/", none⟩, ⟨["post-3"], none, none⟩]⟩ =
      get_page ⟨[⟨["post-3"], none, none⟩]⟩ :=
  ⟨(c4_listing_id_extraction ⟨[]⟩).2.1 ["some-class", "post-abc"] "post-7" [] 7
      (by decide) (by decide),
    (c4_listing_id_extraction ⟨[⟨["post-3"], none, none⟩]⟩).2.2
      ⟨["nope"], some "/images/9/", none⟩ (by decide)⟩

/-- C5: when an image element's srcset yields at least one parsed
(url, width) entry, the emitted variant is the parsed entry of maximum
width, the first such entry on ties: the chosen entry `m` sits in the
parsed list after a (possibly empty) prefix of strictly smaller widths
and bounds every parsed width; in particular
srcset "a.jpg 1280w, b.jpg 1920w" selects `("b.jpg", 1920)`. -/
theorem c5_srcset_max_selection :
    (∀ (img : ImgTag) (t : String) (e : String × Int) (es : List (String × Int)),
      img.srcset = some t → parseSrcset t = e :: es →
      ∃ (m : String × Int) (l1 l2 : List (String × Int)),
        processImg img = some ⟨m.1, some m.2, altOf img⟩
        ∧ e :: es = l1 ++ m :: l2
        ∧ (∀ p ∈ l1, p.2 < m.2)
        ∧ (∀ p ∈ e :: es, p.2 ≤ m.2))
    ∧ parseSrcset "a.jpg 1280w, b.jpg 1920w" = [("a.jpg", 1280), ("b.jpg", 1920)]
    ∧ processImg ⟨some "wp-content/uploads/x.jpg", some "a.jpg 1280w, b.jpg 1920w", none⟩
        = some ⟨"b.jpg", some 1920, ""⟩ := by
  refine ⟨?_, by decide, by decide⟩
  intro img t e es hsrc hpe
  have ht : t ≠ "" := by
    intro h
    rw [h, (by decide : parseSrcset "" = [])] at hpe
    exact List.noConfusion hpe
  refine ⟨pyMaxBy (fun p => p.2) e es, ?_⟩
  obtain ⟨l1, l2, hsplit, hlt, hle⟩ := pyMaxBy_spec (fun p : String × Int => p.2) es e
  refine ⟨l1, l2, ?_, hsplit, hlt, hle⟩
  unfold processImg
  rw [hsrc]
  dsimp only [Option.getD_some]
  rw [if_pos ht, hpe]

theorem c5_witness :
    ∃ (m : String × Int) (l1 l2 : List (String × Int)),
      processImg ⟨some "wp-content/uploads/x.jpg", some "u1 8w, u2 9w", some "a"⟩ =
        some ⟨m.1, some m.2, altOf ⟨some "wp-content/uploads/x.jpg", some "u1 8w, u2 9w", some "a"⟩⟩
      ∧ ("u1", (8 : Int)) :: [("u2", 9)] = l1 ++ m :: l2
      ∧ (∀ p ∈ l1, p.2 < m.2)
      ∧ (∀ p ∈ ("u1", (8 : Int)) :: [("u2", 9)], p.2 ≤ m.2) :=
  c5_srcset_max_selection.1 ⟨some "wp-content/uploads/x.jpg", some "u1 8w, u2 9w", some "a"⟩
    "u1 8w, u2 9w" ("u1", 8) [("u2", 9)] rfl (by decide)

/-- C2 (amended): a selected image element (src present and containing
"wp-content/uploads") emits exactly one variant built from its own src
with no width when its srcset attribute is absent or is exactly the
empty string; but when srcset is present and non-empty while yielding no
parsed entry (whitespace-only, or all entries malformed), the code emits
no variant at all — there is no fallback to src in that case.  The
`all_images` field collects the per-element emissions in order. -/
theorem c2_srcset_fallback_amended (img : ImgTag) :
    (∀ s : String, img.src = some s → strContains s "wp-content/uploads" = true →
      (img.srcset = none ∨ img.srcset = some "") →
      processImg img = some ⟨s, none, altOf img⟩)
    ∧ (∀ t : String, img.srcset = some t → t ≠ "" → parseSrcset t = [] →
        processImg img = none)
    ∧ (∀ (doc : DetailDoc) (image_id : Int),
        (get_image_info doc image_id).all_images =
          (doc.imgs.filter selectedImg).filterMap processImg) := by
  refine ⟨?_, ?_, ?_⟩
  · intro s hs hwp hss
    have hsne : s ≠ "" := by
      intro h
      rw [h] at hwp
      exact absurd hwp (by decide)
    unfold processImg
    rcases hss with h | h <;>
      · rw [h]
        dsimp only
        rw [if_neg (by simp), hs]
        dsimp only
        rw [if_pos hsne]
  · intro t hss ht hpe
    unfold processImg
    rw [hss]
    dsimp only [Option.getD_some]
    rw [if_pos ht, hpe]
  · intro doc image_id
    unfold get_image_info
    dsimp only
    have hgen : ∀ (l : List ImgTag) (acc : List ImageVariant),
        l.foldl (fun acc img =>
          match processImg img with
          | none => acc
          | some v => acc ++ [v]) acc = acc ++ l.filterMap processImg := by
      intro l
      induction l with
      | nil => intro acc; simp
      | cons i rest ih =>
        intro acc
        rw [List.foldl_cons]
        cases h : processImg i with
        | none => simp only [h, List.filterMap_cons]; rw [ih]
        | some v => simp only [h, List.filterMap_cons]; rw [ih]; simp
    rw [hgen]
    rfl

/-- C2 counterexample: a selected image element with src
"wp-content/uploads/a.jpg" and srcset " " (non-empty, but empty after
trimming) emits nothing — `all_images` is empty although the claim
requires one variant built from src. -/
theorem c2_counterexample :
    selectedImg ⟨some "wp-content/uploads/a.jpg", some " ", none⟩ = true
    ∧ pyStrip " " = ""
    ∧ (get_image_info ⟨[], none, none, [], none, none, [],
        [⟨some "wp-content/uploads/a.jpg", some " ", none⟩]⟩ 1).all_images = [] := by
  refine ⟨by decide, by decide, by decide⟩

theorem c2_witness :
    processImg ⟨some "wp-content/uploads/a.jpg", none, some "h"⟩ =
      some ⟨"wp-content/uploads/a.jpg", none, "h"⟩ :=
  (c2_srcset_fallback_amended ⟨some "wp-content/uploads/a.jpg", none, some "h"⟩).1
    "wp-content/uploads/a.jpg" rfl (by decide) (Or.inl rfl)

/-- C8 (amended): `get_page` and `get_image_info` terminate normally
without raising for every input document — every fallible operation is
guarded or caught — and so does `get_total_pages` whenever no cleaned
pagination link text contains a non-decimal digit character; but
`str.isdigit()` also accepts non-decimal digit characters (superscript
and subscript digits such as '²') that `int()` rejects, and on any
document with such a link text `get_total_pages` raises an uncaught
`ValueError` instead of degrading. -/
theorem c8_parsers_raise_only_on_nondecimal_digits :
    (∀ doc : ListingDoc, get_pageE doc = .ok (get_page doc))
    ∧ (∀ (doc : DetailDoc) (image_id : Int),
        get_image_infoE doc image_id = .ok (get_image_info doc image_id))
    ∧ (∀ linkTexts : List String,
        (∀ t ∈ linkTexts, ∀ ch ∈ (cleanLinkText t).toList, isDigitNonDec ch = false) →
        get_total_pagesE linkTexts = .ok (get_total_pages linkTexts))
    ∧ (∀ (linkTexts : List String) (t : String), t ∈ linkTexts →
        pyIsDigitFull (cleanLinkText t) = true → pyInt? (cleanLinkText t) = none →
        get_total_pagesE linkTexts = .error .valueError) :=
  ⟨get_pageE_ok, get_image_infoE_ok,
   fun linkTexts hdec => get_total_pagesE_ok_of_decimal linkTexts hdec,
   fun _ _ ht hdig hnone => get_total_pagesE_error_of_bad ht hdig hnone⟩

/-- C8 counterexample: the pagination link text "²" is accepted by
`isdigit()` but rejected by `int()`, so `get_total_pages` raises an
uncaught `ValueError` on this document instead of terminating
normally. -/
theorem c8_counterexample :
    pyIsDigitFull "²" = true ∧ pyInt? "²" = none ∧
    get_total_pagesE ["²"] = .error PyErr.valueError := by
  refine ⟨by decide, by decide, by rfl⟩

theorem c8_witness :
    get_total_pagesE ["52", "Next"] = .ok (get_total_pages ["52", "Next"]) ∧
    get_total_pagesE ["Prev", "²"] = .error PyErr.valueError :=
  ⟨c8_parsers_raise_only_on_nondecimal_digits.2.2.1 ["52", "Next"] (by decide),
   c8_parsers_raise_only_on_nondecimal_digits.2.2.2 ["Prev", "²"] "²"
     (by decide) (by decide) (by decide)⟩

end Spotlight
